import Mathlib

/-!
Verification of the Code Pool Manager (assets/js/code-manager.js).

The JavaScript class `CodeManager` is shallowly embedded as pure Lean
functions over an explicit pool state (`List CodeRecord`), an explicit
wall-clock time `now : Int` (milliseconds, the value of `Date.now()`),
and an explicit stream of random draws `rand : Nat → Nat` together with a
draw index `k : Nat` (modelling successive calls to `Math.random()`).
`localStorage` persistence is a passive side effect in the source and is
dropped; JSON serialization for export/import is modelled as the identity
on a structured snapshot, since `JSON.stringify`/`JSON.parse` round-trips
these plain records losslessly.
-/

/-- A code record, mirroring the object literals built in code-manager.js:
`{ code, generated, expires, status, uses, lastUsed }`.  `lastUsed` is
absent (`undefined`) until `markCodeAsUsed` sets it, hence `Option Int`. -/
structure CodeRecord where
  code : String
  generated : Int
  expires : Int
  status : String
  uses : Nat
  lastUsed : Option Int
deriving DecidableEq, Repr

/-- `this.rotationInterval = 3600000` (one hour, in ms). -/
def rotationInterval : Int := 3600000

/-- `this.maxCodes = 20`. -/
def maxCodes : Nat := 20

/-- `this.minActiveCodes = 5`. -/
def minActiveCodes : Nat := 5

/-- One draw of `Math.floor(10000 + Math.random() * 90000).toString()`:
draw `k` of the stream is reduced into the 5-digit space `[10000, 99999]`. -/
def drawCode (rand : Nat → Nat) (k : Nat) : String :=
  toString (10000 + rand k % 90000)

/-- The do/while retry loop of `generateUniqueCode`.  `fuel` is the number
of further draws still allowed after the current one; the loop body of the
source draws, increments `attempts`, and repeats while the drawn code is
already in the pool and `attempts < 100`.  The 100th draw (fuel 0) is
accepted unconditionally, exactly as in the source.  Returns the accepted
code and the next unused draw index. -/
def generateUniqueCodeAux (pool : List CodeRecord) (rand : Nat → Nat) :
    Nat → Nat → String × Nat
  | k, 0 => (drawCode rand k, k + 1)
  | k, fuel + 1 =>
    let code := drawCode rand k
    if pool.any (fun c => c.code == code) then
      generateUniqueCodeAux pool rand (k + 1) fuel
    else
      (code, k + 1)

/-- `generateUniqueCode()`: up to `maxAttempts = 100` draws, so 99 units of
fuel after the first draw. -/
def generateUniqueCode (pool : List CodeRecord) (rand : Nat → Nat) (k : Nat) :
    String × Nat :=
  generateUniqueCodeAux pool rand k 99

/-- The `for` loop of `generateNewCodes`: builds the `newCodes` array.
Arguments after the pool, stream and `now` are the draw index `k`, the loop
index `i`, and the number of records still to create.  Note the uniqueness
check inside `generateUniqueCode` runs against `pool` only: the batch under
construction is pushed onto `this.preGeneratedCodes` after the loop. -/
def buildNewCodes (pool : List CodeRecord) (rand : Nat → Nat) (now : Int) :
    Nat → Nat → Nat → List CodeRecord × Nat
  | k, _, 0 => ([], k)
  | k, i, n + 1 =>
    let g := generateUniqueCode pool rand k
    let r := CodeRecord.mk g.1 (now + (i : Int) * 60000)
      (now + rotationInterval + (i : Int) * 60000) "active" 0 none
    let rest := buildNewCodes pool rand now g.2 (i + 1) n
    (r :: rest.1, rest.2)

/-- Descending comparison on `expires`, the order used by `trimCodeList`
(`(a, b) => b.expires - a.expires`). -/
def byExpiresDesc (a b : CodeRecord) : Prop := b.expires ≤ a.expires

instance : DecidableRel byExpiresDesc := fun a b =>
  inferInstanceAs (Decidable (b.expires ≤ a.expires))

instance : IsTotal CodeRecord byExpiresDesc :=
  ⟨fun a b => le_total b.expires a.expires⟩

instance : IsTrans CodeRecord byExpiresDesc :=
  ⟨fun _ _ _ h1 h2 => le_trans h2 h1⟩

/-- `trimCodeList()`: if the pool exceeds `maxCodes`, sort by expiry date
descending and keep the newest `maxCodes` records. -/
def trimCodeList (pool : List CodeRecord) : List CodeRecord :=
  if pool.length > maxCodes then
    (List.insertionSort byExpiresDesc pool).take maxCodes
  else
    pool

/-- `generateNewCodes(count)`: builds `count` fresh records staggered by one
minute, appends them to the pool, trims, and returns the new records, the
updated pool, and the next draw index. -/
def generateNewCodes (pool : List CodeRecord) (rand : Nat → Nat) (now : Int)
    (count k : Nat) : List CodeRecord × List CodeRecord × Nat :=
  let b := buildNewCodes pool rand now k 0 count
  (b.1, trimCodeList (pool ++ b.1), b.2)

/-- The filter predicate of `getActiveCodes`:
`code.expires > now && code.status === 'active'`. -/
def isActiveValid (now : Int) (c : CodeRecord) : Bool :=
  decide (now < c.expires) && (c.status == "active")

/-- Descending comparison on `generated`, the order used by `getActiveCodes`
(`(a, b) => b.generated - a.generated`). -/
def byGeneratedDesc (a b : CodeRecord) : Prop := b.generated ≤ a.generated

instance : DecidableRel byGeneratedDesc := fun a b =>
  inferInstanceAs (Decidable (b.generated ≤ a.generated))

/-- `getActiveCodes()`: unexpired records with status `active`, newest
first by `generated`.  JavaScript `Array.prototype.sort` is stable;
insertion sort by a total preorder is stable as well. -/
def getActiveCodes (pool : List CodeRecord) (now : Int) : List CodeRecord :=
  List.insertionSort byGeneratedDesc (pool.filter (isActiveValid now))

/-- `generateEmergencyCode()`: synthesizes a one-hour `emergency` record
with `uses = 1` and pushes it onto the pool. -/
def generateEmergencyCode (pool : List CodeRecord) (now : Int)
    (rand : Nat → Nat) (k : Nat) : CodeRecord × List CodeRecord × Nat :=
  let g := generateUniqueCode pool rand k
  let e := CodeRecord.mk g.1 now (now + 3600000) "emergency" 1 none
  (e, pool ++ [e], g.2)

/-- Ascending comparison on `uses`, the order used by `getNextCode`
(`(a, b) => a.uses - b.uses`). -/
def byUsesAsc (a b : CodeRecord) : Prop := a.uses ≤ b.uses

instance : DecidableRel byUsesAsc := fun a b =>
  inferInstanceAs (Decidable (a.uses ≤ b.uses))

/-- Replace the first occurrence of `old` in the list with `new`.  This
models the in-place mutation `selectedCode.uses++`, which updates the pool
entry the selected reference points at. -/
def replaceFirst : List CodeRecord → CodeRecord → CodeRecord → List CodeRecord
  | [], _, _ => []
  | c :: cs, old, upd => if c = old then upd :: cs else c :: replaceFirst cs old upd

/-- `getNextCode()`: if there is no unexpired active record, generate an
emergency record; otherwise hand out the least-used active record (ties
kept in `getActiveCodes` order by stability) with its `uses` incremented.
Matching on the sorted list is equivalent to the source's emptiness test on
`activeCodes`, since sorting preserves length. -/
def getNextCode (pool : List CodeRecord) (now : Int) (rand : Nat → Nat)
    (k : Nat) : CodeRecord × List CodeRecord × Nat :=
  match List.insertionSort byUsesAsc (getActiveCodes pool now) with
  | [] => generateEmergencyCode pool now rand k
  | sel :: _ =>
    let upd := { sel with uses := sel.uses + 1 }
    (upd, replaceFirst pool sel upd, k)

/-- `markCodeAsUsed(codeString)`: increment `uses` and stamp `lastUsed` on
the first record whose code matches; no-op when absent. -/
def markCodeAsUsed : List CodeRecord → String → Int → List CodeRecord
  | [], _, _ => []
  | c :: cs, s, now =>
    if c.code == s then
      { c with uses := c.uses + 1, lastUsed := some now } :: cs
    else
      c :: markCodeAsUsed cs s now

/-- Result of `validateCode`: the four object shapes the source returns. -/
inductive ValidationResult where
  | notFound : ValidationResult
  | expired : ValidationResult
  | inactive : ValidationResult
  | valid : CodeRecord → Int → Nat → ValidationResult
deriving DecidableEq, Repr

/-- `validateCode(codeString)`: not-found, then `code.expires < Date.now()`
(strict), then the status check, else success carrying the record, its
remaining time to live and its use count. -/
def validateCode (pool : List CodeRecord) (s : String) (now : Int) :
    ValidationResult :=
  match pool.find? (fun c => c.code == s) with
  | none => ValidationResult.notFound
  | some c =>
    if c.expires < now then ValidationResult.expired
    else if c.status != "active" && c.status != "emergency" then
      ValidationResult.inactive
    else
      ValidationResult.valid c (c.expires - now) c.uses

/-- JavaScript truthiness of the `lastUsed` field in the guard
`code.lastUsed && (now - code.lastUsed) < 300000`: `undefined` and `0` are
both falsy. -/
def lastUsedTruthy : Option Int → Bool
  | none => false
  | some v => v != 0

/-- The keep predicate of `cleanExpiredCodes`: unexpired, or used within
the last five minutes. -/
def keepAfterClean (now : Int) (c : CodeRecord) : Bool :=
  decide (now < c.expires) ||
    (lastUsedTruthy c.lastUsed && decide (now - c.lastUsed.getD 0 < 300000))

/-- `cleanExpiredCodes()`: filter the pool with the keep predicate and
report how many records were removed. -/
def cleanExpiredCodes (pool : List CodeRecord) (now : Int) :
    List CodeRecord × Nat :=
  let kept := pool.filter (keepAfterClean now)
  (kept, pool.length - kept.length)

/-- The retirement pass at the end of `rotateActiveCodes`: an `active`
record expiring within 30 minutes becomes `retiring`. -/
def retireStep (now : Int) (c : CodeRecord) : CodeRecord :=
  if decide (c.expires < now + 1800000) && (c.status == "active") then
    { c with status := "retiring" }
  else
    c

/-- The prune-then-replenish prefix of `rotateActiveCodes`: clean expired
codes, then generate the deficit below `minActiveCodes` if any. -/
def rotatePoolAfterGen (p1 : List CodeRecord) (now : Int) (rand : Nat → Nat)
    (k : Nat) : List CodeRecord × Nat :=
  if (getActiveCodes p1 now).length < minActiveCodes then
    let g := generateNewCodes p1 rand now
      (minActiveCodes - (getActiveCodes p1 now).length) k
    (g.2.1, g.2.2)
  else
    (p1, k)

/-- `rotateActiveCodes()`: clean, replenish the active deficit, and only
then mark soon-expiring active records as retiring. -/
def rotateActiveCodes (pool : List CodeRecord) (now : Int) (rand : Nat → Nat)
    (k : Nat) : List CodeRecord × Nat :=
  let pk := rotatePoolAfterGen ((cleanExpiredCodes pool now).1) now rand k
  (pk.1.map (retireStep now), pk.2)

/-- `maintainCodePool()`: replenish the active deficit only, without the
retirement pass. -/
def maintainCodePool (pool : List CodeRecord) (now : Int) (rand : Nat → Nat)
    (k : Nat) : List CodeRecord × Nat :=
  rotatePoolAfterGen pool now rand k

/-- The export payload of `exportCodes()`:
`{ codes, timestamp, version: '1.0' }`. -/
structure ExportData where
  codes : List CodeRecord
  timestamp : Int
  version : String
deriving DecidableEq, Repr

/-- `exportCodes()`, with JSON serialization modelled as the identity on
the structured payload. -/
def exportCodes (pool : List CodeRecord) (now : Int) : ExportData :=
  ExportData.mk pool now "1.0"

/-- Result of `importCodes` together with the replaced pool.  The parse
and shape failures of the source cannot arise for a well-formed
`ExportData` value, which is the only kind `exportCodes` produces. -/
structure ImportResult where
  success : Bool
  imported : Nat
  pool : List CodeRecord
deriving DecidableEq, Repr

/-- `importCodes(jsonData)`: replace the pool wholesale, clean expired
codes, and report the imported length of the raw payload. -/
def importCodes (data : ExportData) (now : Int) : ImportResult :=
  ImportResult.mk true data.codes.length (cleanExpiredCodes data.codes now).1

/-- Number of unexpired records with status `active`, the count claim C1
speaks about. -/
def activeValidCount (pool : List CodeRecord) (now : Int) : Nat :=
  pool.countP (isActiveValid now)

/-- The usable-or-retiring predicate: unexpired with status `active` or
`retiring`. -/
def isUsableValid (now : Int) (c : CodeRecord) : Bool :=
  decide (now < c.expires) && ((c.status == "active") || (c.status == "retiring"))

/-- Number of unexpired records with status `active` or `retiring`. -/
def usableValidCount (pool : List CodeRecord) (now : Int) : Nat :=
  pool.countP (isUsableValid now)

/-! ### Helper lemmas -/

lemma replaceFirst_length (l : List CodeRecord) (old upd : CodeRecord) :
    (replaceFirst l old upd).length = l.length := by
  induction l with
  | nil => rfl
  | cons c cs ih =>
    unfold replaceFirst
    split <;> simp [ih]

lemma buildNewCodes_fst_length (pool : List CodeRecord) (rand : Nat → Nat)
    (now : Int) : ∀ n k i, ((buildNewCodes pool rand now k i n).1).length = n := by
  intro n
  induction n with
  | zero => intro k i; rfl
  | succ m ih =>
    intro k i
    unfold buildNewCodes
    simp [ih]

lemma buildNewCodes_mem (pool : List CodeRecord) (rand : Nat → Nat)
    (now : Int) : ∀ n k i c, c ∈ (buildNewCodes pool rand now k i n).1 →
    c.status = "active" ∧ c.uses = 0 ∧ now + rotationInterval ≤ c.expires := by
  intro n
  induction n with
  | zero => intro k i c hc; simp [buildNewCodes] at hc
  | succ m ih =>
    intro k i c hc
    unfold buildNewCodes at hc
    simp only [List.mem_cons] at hc
    rcases hc with hc | hc
    · subst hc
      refine ⟨rfl, rfl, ?_⟩
      have : (0 : Int) ≤ (i : Int) * 60000 := by positivity
      simp only []
      omega
    · exact ih _ _ c hc

lemma trimCodeList_of_le (l : List CodeRecord) (h : l.length ≤ maxCodes) :
    trimCodeList l = l := by
  unfold trimCodeList
  rw [if_neg]
  omega

lemma getActiveCodes_length (pool : List CodeRecord) (now : Int) :
    (getActiveCodes pool now).length = activeValidCount pool now := by
  unfold getActiveCodes activeValidCount
  rw [List.length_insertionSort, List.countP_eq_length_filter]

lemma isUsableValid_retireStep (now : Int) (c : CodeRecord) :
    isUsableValid now (retireStep now c) = isUsableValid now c := by
  unfold retireStep isUsableValid
  split
  · rename_i h
    simp only [Bool.and_eq_true, beq_iff_eq] at h
    simp [h.2]
  · rfl

lemma usableValidCount_map_retire (l : List CodeRecord) (now : Int) :
    usableValidCount (l.map (retireStep now)) now = usableValidCount l now := by
  unfold usableValidCount
  rw [List.countP_map]
  exact List.countP_congr (fun c _ => by
    simp [Function.comp, isUsableValid_retireStep])

lemma activeValid_usableValid (now : Int) (c : CodeRecord)
    (h : isActiveValid now c = true) : isUsableValid now c = true := by
  unfold isActiveValid at h
  unfold isUsableValid
  simp only [Bool.and_eq_true] at h ⊢
  exact ⟨h.1, by simp [h.2]⟩

/-! ### Claims -/

/-- C5 (confirmed): on an empty pool, `getNextCode` returns a record with
status `emergency` and `uses = 1`, and the pool grows from 0 to exactly 1
record; the operation is total, so it never fails for lack of codes. -/
theorem getNextCode_emptyPool (now : Int) (rand : Nat → Nat) (k : Nat) :
    (getNextCode [] now rand k).1.status = "emergency" ∧
    (getNextCode [] now rand k).1.uses = 1 ∧
    (getNextCode [] now rand k).2.1.length = 1 :=
  ⟨rfl, rfl, rfl⟩

/-- C6 (confirmed): `trimCodeList` leaves at most `maxCodes` records
(exactly `min` of the pool size and `maxCodes`), and the dropped records
all have `expires` at most that of every retained record: the
oldest-by-expiry records are dropped, never the newest. -/
theorem trimCodeList_spec (l : List CodeRecord) :
    (trimCodeList l).length ≤ maxCodes ∧
    (trimCodeList l).length = min l.length maxCodes ∧
    ∃ dropped : List CodeRecord,
      (trimCodeList l ++ dropped).Perm l ∧
      ∀ x ∈ trimCodeList l, ∀ y ∈ dropped, y.expires ≤ x.expires := by
  by_cases h : l.length > maxCodes
  · have htrim : trimCodeList l =
        (List.insertionSort byExpiresDesc l).take maxCodes := by
      unfold trimCodeList
      rw [if_pos h]
    refine ⟨?_, ?_, (List.insertionSort byExpiresDesc l).drop maxCodes, ?_, ?_⟩
    · rw [htrim, List.length_take, List.length_insertionSort]
      omega
    · rw [htrim, List.length_take, List.length_insertionSort]
      omega
    · rw [htrim, List.take_append_drop]
      exact List.perm_insertionSort byExpiresDesc l
    · intro x hx y hy
      rw [htrim] at hx
      exact (List.sorted_insertionSort byExpiresDesc l).rel_of_mem_take_of_mem_drop hx hy
  · have htrim : trimCodeList l = l := trimCodeList_of_le l (by omega)
    refine ⟨?_, ?_, [], ?_, ?_⟩
    · rw [htrim]; omega
    · rw [htrim]; omega
    · rw [htrim]; simp
    · intro x _ y hy
      simp at hy

/-- C8 (confirmed): importing the export of any pool succeeds, reports the
original pool size as imported, and leaves the pool equal to one
`cleanExpiredCodes` pass over the original records, hence with the same
code strings, statuses and use counts as the pruned original. -/
theorem importExport_roundTrip (pool : List CodeRecord) (t now : Int) :
    (importCodes (exportCodes pool t) now).success = true ∧
    (importCodes (exportCodes pool t) now).imported = pool.length ∧
    (importCodes (exportCodes pool t) now).pool = (cleanExpiredCodes pool now).1 :=
  ⟨rfl, rfl, rfl⟩

/-- C10 (confirmed): the record handed out by `getNextCode` is either an
unexpired `active` record already in the pool (with its use count bumped by
one), or an `emergency` record created during that very call (its
`generated` stamp is the current time and it is appended to the pool).  In
the first branch the returned status is `active`, so a pre-existing
`emergency` record is never selected again. -/
theorem getNextCode_source (pool : List CodeRecord) (now : Int)
    (rand : Nat → Nat) (k : Nat) :
    (∃ c ∈ pool, c.status = "active" ∧ now < c.expires ∧
      (getNextCode pool now rand k).1 = { c with uses := c.uses + 1 } ∧
      (getNextCode pool now rand k).2.1.length = pool.length) ∨
    ((getNextCode pool now rand k).1.status = "emergency" ∧
      (getNextCode pool now rand k).1.generated = now ∧
      (getNextCode pool now rand k).2.1 =
        pool ++ [(getNextCode pool now rand k).1]) := by
  rcases hs : List.insertionSort byUsesAsc (getActiveCodes pool now) with _ | ⟨sel, rest⟩
  · right
    have hg : getNextCode pool now rand k = generateEmergencyCode pool now rand k := by
      unfold getNextCode
      rw [hs]
    rw [hg]
    exact ⟨rfl, rfl, rfl⟩
  · left
    have hg : getNextCode pool now rand k =
        ({ sel with uses := sel.uses + 1 },
          replaceFirst pool sel { sel with uses := sel.uses + 1 }, k) := by
      unfold getNextCode
      rw [hs]
    have hmem : sel ∈ getActiveCodes pool now := by
      have h1 : sel ∈ List.insertionSort byUsesAsc (getActiveCodes pool now) := by
        rw [hs]
        exact List.mem_cons_self _ _
      exact (List.perm_insertionSort byUsesAsc (getActiveCodes pool now)).subset h1
    have hmem2 : sel ∈ pool.filter (isActiveValid now) := by
      unfold getActiveCodes at hmem
      exact (List.perm_insertionSort byGeneratedDesc _).subset hmem
    rw [List.mem_filter] at hmem2
    obtain ⟨hpool, hp⟩ := hmem2
    unfold isActiveValid at hp
    simp only [Bool.and_eq_true, decide_eq_true_eq, beq_iff_eq] at hp
    refine ⟨sel, hpool, hp.2, hp.1, ?_, ?_⟩
    · rw [hg]
    · rw [hg]
      exact replaceFirst_length pool sel _

/-- C4 counterexample: a pool holding a single unexpired `emergency`
record is a pool with a valid (non-expired, active-or-emergency) record,
yet `getNextCode` still creates a fresh `emergency` record there, because
`getActiveCodes` filters on status `active` only. -/
theorem emergencyDespiteValid_counterexample :
    (getNextCode [CodeRecord.mk "54321" 0 1000 "emergency" 1 none] 10
      (fun _ => 0) 0).2.1.length = 2 ∧
    (getNextCode [CodeRecord.mk "54321" 0 1000 "emergency" 1 none] 10
      (fun _ => 0) 0).1.status = "emergency" ∧
    ∃ c ∈ [CodeRecord.mk "54321" 0 1000 "emergency" 1 none],
      (10 : Int) < c.expires ∧ (c.status = "active" ∨ c.status = "emergency") := by
  refine ⟨?_, ?_, ?_⟩ <;> decide

/-- C4 (amended): an `emergency` record is created by `getNextCode`
exactly when the pool holds zero unexpired records with status `active`;
unexpired `emergency` (or `retiring`) records do not prevent the creation
of a further emergency record. -/
theorem emergency_iff_noActive (pool : List CodeRecord) (now : Int)
    (rand : Nat → Nat) (k : Nat) :
    ((getNextCode pool now rand k).2.1.length = pool.length + 1 ∧
      (getNextCode pool now rand k).1.status = "emergency")
    ↔ getActiveCodes pool now = [] := by
  rcases hs : List.insertionSort byUsesAsc (getActiveCodes pool now) with _ | ⟨sel, rest⟩
  · have hempty : getActiveCodes pool now = [] := by
      have h0 := List.length_insertionSort byUsesAsc (getActiveCodes pool now)
      rw [hs] at h0
      exact List.eq_nil_of_length_eq_zero h0.symm
    have hg : getNextCode pool now rand k = generateEmergencyCode pool now rand k := by
      unfold getNextCode
      rw [hs]
    constructor
    · intro _
      exact hempty
    · intro _
      rw [hg]
      refine ⟨?_, rfl⟩
      show (pool ++ [_]).length = pool.length + 1
      simp
  · have hg : getNextCode pool now rand k =
        ({ sel with uses := sel.uses + 1 },
          replaceFirst pool sel { sel with uses := sel.uses + 1 }, k) := by
      unfold getNextCode
      rw [hs]
    constructor
    · intro h
      exfalso
      have hlen : (getNextCode pool now rand k).2.1.length = pool.length := by
        rw [hg]
        exact replaceFirst_length pool sel _
      omega
    · intro h
      exfalso
      rw [h] at hs
      simp [List.insertionSort] at hs

/-- Witness for the amended C4 theorem at the empty pool: it has no
unexpired active record, so the call creates an emergency record. -/
theorem emergency_iff_noActive_witness :
    (getNextCode [] 0 (fun _ => 0) 0).2.1.length =
      ([] : List CodeRecord).length + 1 ∧
    (getNextCode [] 0 (fun _ => 0) 0).1.status = "emergency" :=
  (emergency_iff_noActive [] 0 (fun _ => 0) 0).mpr rfl

/-- C2 counterexample: a record whose `expiresAt` equals the current time
validates successfully, because the source tests `code.expires <
Date.now()` strictly; the claim demands the `Expired` failure there. -/
theorem validateCode_boundary_counterexample :
    validateCode [CodeRecord.mk "12345" 0 1000 "active" 0 none] "12345" 1000 =
      ValidationResult.valid (CodeRecord.mk "12345" 0 1000 "active" 0 none) 0 0 ∧
    validateCode [CodeRecord.mk "12345" 0 1000 "active" 0 none] "12345" 1000 ≠
      ValidationResult.expired := by
  decide

/-- C2 (amended): `validateCode` returns `NotFound` exactly for strings
matching no record, and returns `Expired` for a found record exactly when
its `expiresAt` is strictly less than the current time; a record with
`expiresAt` equal to `now` is not treated as expired (the bound is
inclusive of the current instant). -/
theorem validateCode_notFound_expired (pool : List CodeRecord) (s : String)
    (now : Int) :
    (validateCode pool s now = ValidationResult.notFound ↔
      pool.find? (fun c => c.code == s) = none) ∧
    ∀ c, pool.find? (fun c => c.code == s) = some c →
      (validateCode pool s now = ValidationResult.expired ↔ c.expires < now) := by
  constructor
  · cases hf : pool.find? (fun c => c.code == s) with
    | none => simp [validateCode, hf]
    | some c =>
      simp only [validateCode, hf]
      split_ifs <;> simp
  · intro c hf
    simp only [validateCode, hf]
    split_ifs with h1 h2 <;> simp [h1]

/-- Witness for the amended C2 theorem: an unknown string yields
`NotFound`, and a record one second past expiry yields `Expired`. -/
theorem validateCode_notFound_expired_witness :
    validateCode [CodeRecord.mk "12345" 0 1000 "active" 0 none] "99999" 5 =
      ValidationResult.notFound ∧
    validateCode [CodeRecord.mk "12345" 0 1000 "active" 0 none] "12345" 2000 =
      ValidationResult.expired :=
  ⟨(validateCode_notFound_expired
      [CodeRecord.mk "12345" 0 1000 "active" 0 none] "99999" 5).1.mpr (by decide),
   ((validateCode_notFound_expired
      [CodeRecord.mk "12345" 0 1000 "active" 0 none] "12345" 2000).2
      (CodeRecord.mk "12345" 0 1000 "active" 0 none) (by decide)).mpr (by decide)⟩

/-- C7 counterexample: an unexpired record with status `retiring` is
rejected by `validateCode` with the `Inactive` failure, so it is not
"still valid for use" as the claim states. -/
theorem validateCode_retiring_counterexample :
    validateCode [CodeRecord.mk "11111" 0 1000 "retiring" 0 none] "11111" 10 =
      ValidationResult.inactive ∧
    (10 : Int) < (CodeRecord.mk "11111" 0 1000 "retiring" 0 none).expires := by
  decide

/-- C7 (amended): every record with status `retiring` that is not yet
expired is rejected by `validateCode` with the `Inactive` failure:
`retiring` codes stay in the pool but are not valid for use, since the
status check accepts only `active` and `emergency`. -/
theorem validateCode_retiring_inactive (pool : List CodeRecord) (s : String)
    (now : Int) (c : CodeRecord)
    (hfind : pool.find? (fun r => r.code == s) = some c)
    (hstat : c.status = "retiring")
    (hexp : ¬ c.expires < now) :
    validateCode pool s now = ValidationResult.inactive := by
  simp only [validateCode, hfind]
  rw [if_neg hexp]
  simp [hstat]

/-- Witness for the amended C7 theorem at a concrete unexpired retiring
record. -/
theorem validateCode_retiring_inactive_witness :
    validateCode [CodeRecord.mk "11111" 0 200 "retiring" 0 none] "11111" 20 =
      ValidationResult.inactive :=
  validateCode_retiring_inactive [CodeRecord.mk "11111" 0 200 "retiring" 0 none]
    "11111" 20 (CodeRecord.mk "11111" 0 200 "retiring" 0 none)
    (by decide) rfl (by decide)

/-- C9 counterexample: a record ten minutes past expiry but used one
second ago is outside the grace window of the claim (five minutes past
`expiresAt`), yet `cleanExpiredCodes` keeps it, because the source's
predicate looks only at how recent `lastUsed` is. -/
theorem cleanExpired_grace_counterexample :
    (cleanExpiredCodes [CodeRecord.mk "22222" 0 100 "active" 3 (some 399000)]
      400000).1 =
      [CodeRecord.mk "22222" 0 100 "active" 3 (some 399000)] ∧
    (CodeRecord.mk "22222" 0 100 "active" 3 (some 399000)).expires + 300000 <
      400000 := by
  decide

/-- C9 (amended): `cleanExpiredCodes` keeps a record exactly when it is
not both expired (`expiresAt <= now`) and stale, where a record is not
stale whenever its `lastUsedAt` is set (and nonzero) and lies within the
last five minutes of `now` — regardless of how far past `expiresAt` it is;
every record with `expiresAt > now` is kept, and the returned count is the
number of records removed. -/
theorem cleanExpired_spec (pool : List CodeRecord) (now : Int) :
    (∀ c ∈ pool, (c ∈ (cleanExpiredCodes pool now).1 ↔
      ¬(c.expires ≤ now ∧
        ¬(lastUsedTruthy c.lastUsed = true ∧ now - c.lastUsed.getD 0 < 300000)))) ∧
    (cleanExpiredCodes pool now).2 =
      pool.length - ((cleanExpiredCodes pool now).1).length ∧
    ∀ c ∈ pool, now < c.expires → c ∈ (cleanExpiredCodes pool now).1 := by
  refine ⟨?_, rfl, ?_⟩
  · intro c hc
    unfold cleanExpiredCodes
    simp only [List.mem_filter, hc, true_and]
    unfold keepAfterClean
    constructor
    · intro hk
      simp only [Bool.or_eq_true, Bool.and_eq_true, decide_eq_true_eq] at hk
      push_neg
      intro hle
      rcases hk with h | h
      · omega
      · exact ⟨h.1, h.2⟩
    · intro hn
      simp only [Bool.or_eq_true, Bool.and_eq_true, decide_eq_true_eq]
      push_neg at hn
      by_cases he : now < c.expires
      · left
        exact he
      · right
        exact hn (by omega)
  · intro c hc hlt
    unfold cleanExpiredCodes
    refine List.mem_filter.mpr ⟨hc, ?_⟩
    unfold keepAfterClean
    simp [hlt]

/-- Witness for the amended C9 theorem: an unexpired record is kept by the
cleaning pass. -/
theorem cleanExpired_spec_witness :
    CodeRecord.mk "33333" 0 100 "active" 0 none ∈
      (cleanExpiredCodes [CodeRecord.mk "33333" 0 100 "active" 0 none] 50).1 :=
  (cleanExpired_spec [CodeRecord.mk "33333" 0 100 "active" 0 none] 50).2.2
    (CodeRecord.mk "33333" 0 100 "active" 0 none) (by decide) (by decide)

/-- Accepting the first draw when the pool is empty: with no held codes
the uniqueness check never retries. -/
lemma generateUniqueCode_nilPool (rand : Nat → Nat) (k : Nat) :
    generateUniqueCode [] rand k = (drawCode rand k, k + 1) := rfl

/-- C3 counterexample: with a draw stream that repeats the same value,
`generateNewCodes 3` on an empty pool returns three records carrying the
same code string, because each candidate is checked against the held pool
only and the batch is appended after all three draws. -/
theorem generateThree_duplicates_counterexample :
    ((generateNewCodes [] (fun _ => 0) 0 3 0).1).length = 3 ∧
    ¬ (((generateNewCodes [] (fun _ => 0) 0 3 0).1).map
        (fun c => c.code)).Nodup := by
  decide

/-- C3 (amended): `generateNewCodes 3` on an empty pool returns exactly 3
records, all with status `active` and `uses = 0`, whose code strings are
exactly the first three raw draws of the stream (the pool is extended with
the whole batch only afterwards, so the codes are pairwise distinct
precisely when those three draws are). -/
theorem generateThree_emptyPool (rand : Nat → Nat) (now : Int) :
    ((generateNewCodes [] rand now 3 0).1).length = 3 ∧
    ((generateNewCodes [] rand now 3 0).1).map (fun c => c.code) =
      [drawCode rand 0, drawCode rand 1, drawCode rand 2] ∧
    ((generateNewCodes [] rand now 3 0).1).map (fun c => c.status) =
      ["active", "active", "active"] ∧
    ((generateNewCodes [] rand now 3 0).1).map (fun c => c.uses) = [0, 0, 0] ∧
    (generateNewCodes [] rand now 3 0).2.1 =
      (generateNewCodes [] rand now 3 0).1 :=
  ⟨rfl, rfl, rfl, rfl, rfl⟩

/-- C1 counterexample: a pool of five active records all expiring within
the 30-minute horizon still counts five active codes when the deficit is
computed, so `rotateActiveCodes` generates nothing (no uniqueness retries
occur at all) and then marks all five as `retiring`: afterwards zero
records are `active` and unexpired, violating the claimed lower bound of
`minActiveCodes`. -/
theorem rotate_active_counterexample :
    activeValidCount
      [CodeRecord.mk "11111" 0 1000000 "active" 0 none,
       CodeRecord.mk "22222" 0 1000000 "active" 0 none,
       CodeRecord.mk "33333" 0 1000000 "active" 0 none,
       CodeRecord.mk "44444" 0 1000000 "active" 0 none,
       CodeRecord.mk "55555" 0 1000000 "active" 0 none] 0 = 5 ∧
    activeValidCount ((rotateActiveCodes
      [CodeRecord.mk "11111" 0 1000000 "active" 0 none,
       CodeRecord.mk "22222" 0 1000000 "active" 0 none,
       CodeRecord.mk "33333" 0 1000000 "active" 0 none,
       CodeRecord.mk "44444" 0 1000000 "active" 0 none,
       CodeRecord.mk "55555" 0 1000000 "active" 0 none] 0 (fun _ => 0) 0).1) 0
      = 0 ∧
    0 < minActiveCodes := by
  decide

/-- C1 (amended): provided the pruned pool is small enough that trimming
cannot occur (at most `maxCodes - minActiveCodes` records after the
cleaning pass), `rotateActiveCodes` leaves at least `minActiveCodes`
unexpired records whose status is `active` or `retiring`.  The
`active`-only count can drop below `minActiveCodes`, because records
counted against the deficit are re-marked `retiring` only after the
deficit is computed and generated. -/
theorem rotate_maintains (pool : List CodeRecord) (now : Int)
    (rand : Nat → Nat) (k : Nat)
    (h : ((cleanExpiredCodes pool now).1).length ≤ maxCodes - minActiveCodes) :
    minActiveCodes ≤ usableValidCount ((rotateActiveCodes pool now rand k).1) now := by
  have hM : maxCodes = 20 := rfl
  have hm : minActiveCodes = 5 := rfl
  show minActiveCodes ≤ usableValidCount
    (((rotatePoolAfterGen ((cleanExpiredCodes pool now).1) now rand k).1).map
      (retireStep now)) now
  rw [usableValidCount_map_retire]
  set p1 := (cleanExpiredCodes pool now).1 with hp1
  have hbase : activeValidCount p1 now ≤ usableValidCount p1 now :=
    List.countP_mono_left (fun c _ hc => activeValid_usableValid now c hc)
  unfold rotatePoolAfterGen
  by_cases hA : (getActiveCodes p1 now).length < minActiveCodes
  · rw [if_pos hA]
    show minActiveCodes ≤ usableValidCount
      (generateNewCodes p1 rand now (minActiveCodes - (getActiveCodes p1 now).length) k).2.1 now
    set d := minActiveCodes - (getActiveCodes p1 now).length with hd
    show minActiveCodes ≤ usableValidCount
      (trimCodeList (p1 ++ (buildNewCodes p1 rand now k 0 d).1)) now
    have hblen : ((buildNewCodes p1 rand now k 0 d).1).length = d :=
      buildNewCodes_fst_length p1 rand now d k 0
    have hdle : d ≤ minActiveCodes := by omega
    have hlen : (p1 ++ (buildNewCodes p1 rand now k 0 d).1).length ≤ maxCodes := by
      rw [List.length_append, hblen]
      omega
    rw [trimCodeList_of_le _ hlen]
    unfold usableValidCount at hbase ⊢
    rw [List.countP_append]
    have hnew : ((buildNewCodes p1 rand now k 0 d).1).countP (isUsableValid now) =
        ((buildNewCodes p1 rand now k 0 d).1).length := by
      rw [List.countP_eq_length]
      intro c hc
      obtain ⟨hst, _, hexp⟩ := buildNewCodes_mem p1 rand now d k 0 c hc
      have hri : rotationInterval = 3600000 := rfl
      unfold isUsableValid
      simp only [Bool.and_eq_true, decide_eq_true_eq, Bool.or_eq_true, beq_iff_eq]
      exact ⟨by omega, Or.inl hst⟩
    rw [hnew, hblen]
    have hAct : (getActiveCodes p1 now).length = p1.countP (isActiveValid now) :=
      getActiveCodes_length p1 now
    unfold activeValidCount at hbase
    omega
  · rw [if_neg hA]
    show minActiveCodes ≤ usableValidCount p1 now
    have hAct : (getActiveCodes p1 now).length = activeValidCount p1 now :=
      getActiveCodes_length p1 now
    omega

/-- Witness for the amended C1 theorem at the empty pool: cleaning leaves
zero records, the deficit of five is generated, and all five survive the
retirement pass as unexpired active records. -/
theorem rotate_maintains_witness :
    minActiveCodes ≤ usableValidCount ((rotateActiveCodes [] 0 (fun _ => 0) 0).1) 0 :=
  rotate_maintains [] 0 (fun _ => 0) 0 (by decide)
